import Mathlib

/-!
Verification of the `tee-js` stream-splitting library.

The development shallowly embeds the two components of the reference source:

* `createTeeIterators` (the Splitter): one shared source cursor, a shared
  `streamBuffer`, per-cursor read positions (`iteratorIndexPositions`),
  an `exhausted` flag and a captured `streamError`, together with the
  per-cursor `next` / `return` / `throw` operations and the
  `cleanupStreamBuffer` eviction step.
* `teeConsumers` (the Consumer Runner): validation of consumer descriptors
  followed by draining one teed cursor per descriptor while applying the
  descriptor's map / filter / reduce / forEach operation.

Mutable closure state of the JavaScript source is modelled as an explicit
`SplitterState` record threaded through every operation.  JavaScript
exceptions are modelled with explicit result constructors (`StreamResult`,
`Except JSError`).  The `traces` field of `SplitterState` is a history
(ghost) field recording the values each cursor has yielded so far; it is
written exactly when the source's `next` returns `{ value, done: false }`
and never read by the code paths, so it does not influence behaviour.
-/

namespace TeeJs

/-- A JavaScript runtime value, as far as the consumer layer needs one:
`undefined`, numbers, booleans and arrays.  Element indices are passed to
consumer functions as numbers. -/
inductive JSVal where
  | undef : JSVal
  | num : Int → JSVal
  | bool : Bool → JSVal
  | arr : List JSVal → JSVal

/-- `x === undefined` as used by the reduce seeding check. -/
def isUndef : JSVal → Bool
  | .undef => true
  | _ => false

/-- JavaScript truthiness for the values in our model (used by `filter`). -/
def truthy : JSVal → Bool
  | .undef => false
  | .num q => decide (q ≠ 0)
  | .bool b => b
  | .arr _ => true

/-- The error classes thrown by the source: `Error`, `TypeError`, and the
`RangeError` produced by `Array(count)` on a negative length. -/
inductive JSError where
  | error : String → JSError
  | typeError : String → JSError
  | rangeError : String → JSError
deriving DecidableEq

/-- The closure state of one `createTeeIterators` invocation.

`srcElems`/`srcErr` model the underlying source iterator: each pull pops
the head of `srcElems`; once `srcElems` is empty, a pull throws `srcErr`
if present and otherwise reports `done`.  `pulls` counts invocations of
`sourceIterator.next()` (instrumentation only).  `traces` is the ghost
history of values yielded per cursor. -/
structure SplitterState (α ε : Type) where
  srcElems : List α
  srcErr : Option ε
  pulls : Nat
  positions : List Nat
  streamBuffer : List α
  streamExhausted : Bool
  streamError : Option ε
  doneFlags : List Bool
  traces : List (List α)

/-- Outcome of one call to a cursor operation: a yielded value, an
end-of-sequence signal, or a thrown error. -/
inductive StreamResult (α ε : Type) where
  | value : α → StreamResult α ε
  | done : StreamResult α ε
  | thrown : ε → StreamResult α ε
deriving DecidableEq

/-- `Math.min(...iteratorIndexPositions)` for the nonempty position lists on
which the source invokes it (with at least one cursor, the list is never
empty; the value on `[]` is immaterial). -/
def minPos : List Nat → Nat
  | [] => 0
  | [a] => a
  | a :: l => min a (minPos l)

/-- Maximum of a list of read positions (0 on the empty list). -/
def maxPos : List Nat → Nat
  | [] => 0
  | a :: l => max a (maxPos l)

/-- Maximum read position over the non-terminal cursors: positions paired
with their cursors' done flags, terminal cursors skipped. -/
def maxLivePos : List Nat → List Bool → Nat
  | [], _ => 0
  | _ :: _, [] => 0
  | p :: ps, d :: ds => if d then maxLivePos ps ds else max p (maxLivePos ps ds)

/-- `getNextStreamElement` from the source: replay exhaustion, replay a
captured error, otherwise pull once from the source iterator, caching a
fresh `done` or a fresh error. -/
def getNextStreamElement (s : SplitterState α ε) :
    StreamResult α ε × SplitterState α ε :=
  if s.streamExhausted then (.done, s)
  else
    match s.streamError with
    | some e => (.thrown e, s)
    | none =>
      match s.srcElems with
      | a :: rest => (.value a, { s with srcElems := rest, pulls := s.pulls + 1 })
      | [] =>
        match s.srcErr with
        | some e => (.thrown e, { s with streamError := some e, pulls := s.pulls + 1 })
        | none => (.done, { s with streamExhausted := true, pulls := s.pulls + 1 })

/-- `cleanupStreamBuffer`: drop `min(...positions)` elements from the front
of the buffer and subtract that amount from every position.  (The
JavaScript subtraction never goes below zero because the minimum is
subtracted, so `Nat` subtraction is exact here.) -/
def cleanupStreamBuffer (s : SplitterState α ε) : SplitterState α ε :=
  let m := minPos s.positions
  { s with
    streamBuffer := s.streamBuffer.drop m,
    positions := s.positions.map (fun p => p - m) }

/-- Append a yielded value to cursor `i`'s ghost trace. -/
def traceSnoc (ts : List (List α)) (i : Nat) (v : α) : List (List α) :=
  ts.set i (ts.getD i [] ++ [v])

/-- The `next()` method of the teed iterator with index `i`, translated
clause by clause from the source: early return when the cursor is done;
serve from the buffer when the read position is inside it; otherwise pull
via `getNextStreamElement`, handling end, error, and fresh values. -/
def next (i : Nat) (s : SplitterState α ε) :
    StreamResult α ε × SplitterState α ε :=
  if s.doneFlags.getD i false then (.done, s)
  else if h : s.positions.getD i 0 < s.streamBuffer.length then
    (.value (s.streamBuffer.get ⟨s.positions.getD i 0, h⟩),
      cleanupStreamBuffer
        { s with
          positions := s.positions.set i (s.positions.getD i 0 + 1),
          traces := traceSnoc s.traces i
            (s.streamBuffer.get ⟨s.positions.getD i 0, h⟩) })
  else
    match getNextStreamElement s with
    | (.done, s1) => (.done, { s1 with doneFlags := s1.doneFlags.set i true })
    | (.thrown e, s1) => (.thrown e, s1)
    | (.value a, s1) =>
      (.value a,
        cleanupStreamBuffer
          { s1 with
            streamBuffer := s1.streamBuffer ++ [a],
            positions := s1.positions.set i (s.positions.getD i 0 + 1),
            traces := traceSnoc s1.traces i a })

/-- The `return(value)` method of cursor `i`: mark the cursor done and hand
back `{ value, done: true }`.  Only the cursor's own done flag changes. -/
def iterReturn (i : Nat) (v : β) (s : SplitterState α ε) :
    (β × Bool) × SplitterState α ε :=
  ((v, true), { s with doneFlags := s.doneFlags.set i true })

/-- The `throw(e)` method of cursor `i`: mark the cursor done and throw the
supplied error to the caller. -/
def iterThrow (i : Nat) (e : ε') (s : SplitterState α ε) :
    ε' × SplitterState α ε :=
  (e, { s with doneFlags := s.doneFlags.set i true })

/-- The splitter state immediately after `createTeeIterators` has set up
its closure variables for `n` cursors: empty buffer, all positions zero,
no cursor done, and the source not yet pulled (`pulls = 0`). -/
def initState (src : List α) (srcErr : Option ε) (n : Nat) : SplitterState α ε :=
  { srcElems := src
    srcErr := srcErr
    pulls := 0
    positions := List.replicate n 0
    streamBuffer := []
    streamExhausted := false
    streamError := none
    doneFlags := List.replicate n false
    traces := List.replicate n [] }

/-- Run a schedule of `next()` calls: each entry names the cursor whose
`next` is invoked, results discarded (they are recorded in `traces`). -/
def runSchedule : List Nat → SplitterState α ε → SplitterState α ε
  | [], s => s
  | i :: rest, s => runSchedule rest (next i s).2

/-- A schedule that fully drains cursor 0, then cursor 1, ..., then cursor
`n-1`: `len + 1` calls per cursor suffice for a source of length `len`. -/
def drainSchedule (n len : Nat) : List Nat :=
  (List.range n).flatMap (fun i => List.replicate (len + 1) i)

/-- The arguments of one `createTeeIterators(sourceIterable, count)` call,
as observed by its validation code: `arguments.length`, whether
`sourceIterable[Symbol.iterator]` is present, the source contents, and the
`count` argument (`some q` when `typeof count === "number"`). -/
structure TeeCallArgs (α ε : Type) where
  argCount : Nat
  hasIteratorCapability : Bool
  srcElems : List α
  srcErr : Option ε
  count : Option ℚ

/-- `createTeeIterators`: argument validation, `count = Math.floor(count)`,
then allocation of the per-cursor state (`Array(count)` throws a
`RangeError` on a negative length, which the floored count can produce).
Returns the initial splitter state and the number of cursors created. -/
def createTeeIterators (a : TeeCallArgs α ε) :
    Except JSError (SplitterState α ε × Nat) :=
  if a.argCount ≠ 2 then
    .error (.error ("Expected 2 arguments but recieved: " ++ toString a.argCount))
  else if ¬ a.hasIteratorCapability then
    .error (.error "Expected Arg 1 to be an iterator.")
  else
    match a.count with
    | none => .error (.error "Expected Arg 2 to be an integer")
    | some q =>
      let c : Int := q.floor
      if c < 0 then .error (.rangeError "Invalid array length")
      else .ok (initState a.srcElems a.srcErr c.toNat, c.toNat)

/-- A consumer descriptor as it reaches `teeConsumers` at runtime, with
exactly the structure the validation code can observe: either not an
object (including `null`), or an object whose `kind` property is
`some k` when present with a string value, whose `fn` property is
`some f` when function-valued, and whose `initVal` property records both
presence and value (`some .undef` is an explicitly-undefined `initVal`). -/
inductive ConsumerArg where
  | nonObject : ConsumerArg
  | obj : Option String → Option (List JSVal → JSVal) → Option JSVal → ConsumerArg

/-- A descriptor that passed validation: a string `kind`, a function `fn`,
and the `initVal` property as present/absent. -/
structure TeeConsumer where
  kind : String
  fn : List JSVal → JSVal
  initVal : Option JSVal

/-- The validation loop of `teeConsumers`: walk the consumers in order and
throw a `TypeError` at the first one that is not an object, lacks a
string `kind`, or lacks a function `fn`. -/
def validateConsumers : List ConsumerArg → Except JSError (List TeeConsumer)
  | [] => .ok []
  | .nonObject :: _ => .error (.typeError "Each consumer must be an object")
  | .obj k f iv :: rest =>
    match k with
    | none => .error (.typeError "Each consumer must have a string kind property")
    | some kind =>
      match f with
      | none => .error (.typeError "Each consumer must have a function fn property")
      | some fn => do
        let tail ← validateConsumers rest
        .ok (⟨kind, fn, iv⟩ :: tail)

/-- The accumulators of the per-consumer element loop: `mapResult`,
`reduceResult`, `filterResult` and `elementIdx`, exactly as declared in
the source (only the accumulator matching the consumer's kind is read at
the end). -/
structure LoopState where
  mapResult : List JSVal
  reduceResult : JSVal
  filterResult : List JSVal
  elementIdx : Nat

/-- The `switch (fn.kind)` body applied to each element the consumer's
cursor yields: `forEach` calls `fn` for effect only, `map` collects
`fn(elem, idx)`, `reduce` seeds from the first element when the
accumulator is still `undefined` at index 0, `filter` keeps truthy-tested
elements, and an unrecognized kind throws an `Error` (so it is only
detected upon the first element). -/
def consumeLoop (kind : String) (f : List JSVal → JSVal) (st : LoopState) :
    List JSVal → Except JSError LoopState
  | [] => .ok st
  | elem :: rest =>
    if kind = "forEach" then
      consumeLoop kind f { st with elementIdx := st.elementIdx + 1 } rest
    else if kind = "map" then
      consumeLoop kind f
        { st with
          mapResult := st.mapResult ++ [f [elem, .num st.elementIdx]],
          elementIdx := st.elementIdx + 1 } rest
    else if kind = "reduce" then
      let acc :=
        if st.elementIdx = 0 ∧ isUndef st.reduceResult then elem
        else f [st.reduceResult, elem, .num st.elementIdx]
      consumeLoop kind f
        { st with reduceResult := acc, elementIdx := st.elementIdx + 1 } rest
    else if kind = "filter" then
      consumeLoop kind f
        { st with
          filterResult :=
            if truthy (f [elem, .num st.elementIdx]) then st.filterResult ++ [elem]
            else st.filterResult,
          elementIdx := st.elementIdx + 1 } rest
    else .error (.error ("Unknown consumer kind: " ++ kind))

/-- Process one consumer over the elements its cursor yields: initialize
`reduceResult` to `fn.initVal` (which reads as `undefined` when the
property is absent) for reduce consumers and `undefined` otherwise, run
the element loop, then select the result by kind in the final switch.
That switch has no default case, so an unrecognized kind (reachable only
with an empty source) leaves the `Array(n).fill(0)` placeholder `0` in
the result slot. -/
def processConsumer (c : TeeConsumer) (elems : List JSVal) :
    Except JSError JSVal :=
  let init : LoopState :=
    { mapResult := []
      reduceResult := if c.kind = "reduce" then c.initVal.getD .undef else .undef
      filterResult := []
      elementIdx := 0 }
  match consumeLoop c.kind c.fn init elems with
  | .error e => .error e
  | .ok st =>
    .ok (if c.kind = "forEach" then .undef
      else if c.kind = "reduce" then st.reduceResult
      else if c.kind = "map" then .arr st.mapResult
      else if c.kind = "filter" then .arr st.filterResult
      else .num 0)

/-- Process the consumers in order, each over its own cursor's yielded
elements; the first thrown error aborts the remaining consumers. -/
def processAll : List TeeConsumer → List (List JSVal) → Except JSError (List JSVal)
  | [], _ => .ok []
  | c :: cs, ts => do
    let r ← processConsumer c (ts.headD [])
    let rs ← processAll cs ts.tail
    .ok (r :: rs)

/-- The values each of the `n` teed cursors over the array `S` yields when
fully drained, read off from the ghost traces after running a draining
schedule.  `teeConsumers` drains each consumer's cursor completely before
moving to the next, which `drainSchedule` reproduces; processing does not
feed back into the splitter, so draining is modelled up front. -/
def teeTraces (S : List JSVal) (n : Nat) : List (List JSVal) :=
  (runSchedule (drainSchedule n S.length)
    (initState S (none : Option JSError) n)).traces

/-- `teeConsumers` (`Array.prototype.tee`), called on the array `S` with
the given consumer arguments: reject an empty consumer list with a plain
`Error`, validate every consumer (first failure throws its `TypeError`),
obtain one teed cursor per consumer from `createTeeIterators` (that
internal call trivially passes validation: two arguments, an array
receiver, a numeric integral count), then drain and process each
consumer's cursor in order. -/
def teeConsumers (S : List JSVal) (consumers : List ConsumerArg) :
    Except JSError (List JSVal) :=
  if consumers.isEmpty then
    .error (.error "At least one consumer must be provided")
  else do
    let fns ← validateConsumers consumers
    processAll fns (teeTraces S consumers.length)

/-- Index-aware map semantics: what collecting `fn(elem, idx)` from
starting index `i` produces. -/
def jsMapSpec (f : List JSVal → JSVal) : Nat → List JSVal → List JSVal
  | _, [] => []
  | i, x :: xs => f [x, .num i] :: jsMapSpec f (i + 1) xs

/-- Index-aware filter semantics: keep the elements whose test is truthy. -/
def jsFilterSpec (f : List JSVal → JSVal) : Nat → List JSVal → List JSVal
  | _, [] => []
  | i, x :: xs =>
    if truthy (f [x, .num i]) then x :: jsFilterSpec f (i + 1) xs
    else jsFilterSpec f (i + 1) xs

/-- Index-aware reduce semantics: fold `fn(acc, elem, idx)` from starting
index `i` over the elements. -/
def jsReduceSpec (f : List JSVal → JSVal) (acc : JSVal) : Nat → List JSVal → JSVal
  | _, [] => acc
  | i, x :: xs => jsReduceSpec f (f [acc, x, .num i]) (i + 1) xs

/-- The doubling function of the §8 example: `(x, i) => x * 2`. -/
def doubleFn : List JSVal → JSVal
  | .num x :: _ => .num (x * 2)
  | _ => (.undef : JSVal)

/-- The evenness test of the §8 example: `(x, i) => x % 2 == 0`. -/
def evenFn : List JSVal → JSVal
  | .num x :: _ => .bool (decide (x % 2 = 0))
  | _ => (.undef : JSVal)

/-- The summing reducer of the §8 example: `(acc, x, i) => acc + x`. -/
def sumFn : List JSVal → JSVal
  | .num a :: .num b :: _ => .num (a + b)
  | _ => (.undef : JSVal)

/-- The multiplying reducer of the §8 example: `(acc, x, i) => acc * x`. -/
def mulFn : List JSVal → JSVal
  | .num a :: .num b :: _ => .num (a * b)
  | _ => (.undef : JSVal)

/-- A no-op consumer function. -/
def noopFn : List JSVal → JSVal := fun _ => (.undef : JSVal)

/-- The values cursor `i` has yielded so far (ghost trace projection). -/
def cursorTrace (s : SplitterState α ε) (i : Nat) : List α :=
  s.traces.getD i []

/-- The `done` flag of cursor `i`. -/
def cursorDone (s : SplitterState α ε) (i : Nat) : Bool :=
  s.doneFlags.getD i false

/-- Specification-side consumer runner: process each consumer directly over
the source array `S`, in order, with the first error aborting the rest. -/
def processAllDirect (S : List JSVal) : List TeeConsumer → Except JSError (List JSVal)
  | [] => .ok []
  | c :: cs => do
    let r ← processConsumer c S
    let rs ← processAllDirect S cs
    .ok (r :: rs)

/-! ### List helper lemmas -/

theorem getD_eq_getElem (l : List γ) (i : Nat) (d : γ) (h : i < l.length) :
    l.getD i d = l[i] := by
  rw [List.getD_eq_getElem?_getD, List.getElem?_eq_getElem h]
  rfl

theorem getD_set_self (l : List γ) (i : Nat) (v d : γ) (h : i < l.length) :
    (l.set i v).getD i d = v := by
  rw [List.getD_eq_getElem?_getD, List.getElem?_set_self h]
  rfl

theorem getD_set_ne (l : List γ) {i j : Nat} (v d : γ) (h : i ≠ j) :
    (l.set i v).getD j d = l.getD j d := by
  rw [List.getD_eq_getElem?_getD, List.getElem?_set_ne h, ← List.getD_eq_getElem?_getD]

theorem getD_replicate {n i : Nat} (x d : γ) (h : i < n) :
    (List.replicate n x).getD i d = x := by
  rw [getD_eq_getElem _ _ _ (by simpa using h)]
  exact List.getElem_replicate ..

theorem getD_mem (l : List γ) (i : Nat) (d : γ) (h : i < l.length) :
    l.getD i d ∈ l := by
  rw [getD_eq_getElem _ _ _ h]
  exact List.getElem_mem h

theorem getD_default_of_le (l : List γ) {i : Nat} (d : γ) (h : l.length ≤ i) :
    l.getD i d = d := by
  rw [List.getD_eq_getElem?_getD, List.getElem?_eq_none h]
  rfl

theorem getD_map_sub (l : List Nat) (i m : Nat) (h : i < l.length) :
    (l.map (fun p => p - m)).getD i 0 = l.getD i 0 - m := by
  rw [List.getD_eq_getElem?_getD, List.getElem?_map, List.getElem?_eq_getElem h,
    getD_eq_getElem _ _ _ h]
  rfl

theorem minPos_le_of_mem : ∀ {l : List Nat} {x : Nat}, x ∈ l → minPos l ≤ x
  | [a], x, h => by
    rcases List.mem_singleton.1 h with rfl
    exact Nat.le_refl _
  | a :: b :: l, x, h => by
    rcases List.mem_cons.1 h with rfl | h'
    · exact min_le_left _ _
    · exact le_trans (min_le_right _ _) (minPos_le_of_mem h')

theorem minPos_mem : ∀ (l : List Nat), l ≠ [] → minPos l ∈ l
  | [a], _ => List.mem_singleton.2 rfl
  | a :: b :: l, _ => by
    show min a (minPos (b :: l)) ∈ a :: b :: l
    rcases le_total a (minPos (b :: l)) with h | h
    · rw [min_eq_left h]; exact List.mem_cons_self _ _
    · rw [min_eq_right h]
      exact List.mem_cons_of_mem _ (minPos_mem (b :: l) (by simp))

theorem minPos_map_sub_self (l : List Nat) (hl : l ≠ []) :
    minPos (l.map (fun p => p - minPos l)) = 0 := by
  have h0 : (0 : Nat) ∈ l.map (fun p => p - minPos l) :=
    List.mem_map.2 ⟨minPos l, minPos_mem l hl, by omega⟩
  exact Nat.le_zero.1 (minPos_le_of_mem h0)

theorem le_maxPos_of_mem : ∀ {l : List Nat} {x : Nat}, x ∈ l → x ≤ maxPos l
  | a :: l, x, h => by
    rcases List.mem_cons.1 h with rfl | h'
    · exact le_max_left _ _
    · exact le_trans (le_maxPos_of_mem h') (le_max_right _ _)

theorem maxPos_le_of_forall : ∀ {l : List Nat} {b : Nat}, (∀ x ∈ l, x ≤ b) → maxPos l ≤ b
  | [], b, _ => Nat.zero_le b
  | a :: l, b, h => by
    refine max_le (h a (List.mem_cons_self _ _)) (maxPos_le_of_forall fun x hx => ?_)
    exact h x (List.mem_cons_of_mem _ hx)

/-! ### The splitter invariant

`PreInv` collects the state properties that hold between the mutation and
the eviction step of a `next` call; `SplitInv` additionally records that
eviction has rebased the minimum read position to zero, which holds in
every state observable between `next` calls.  The source is error-free
here (`srcErr = none`); the error path is analysed separately. -/

structure PreInv (S : List α) (n : Nat) (s : SplitterState α ε) : Prop where
  npos : 0 < n
  posLen : s.positions.length = n
  doneLen : s.doneFlags.length = n
  tracesLen : s.traces.length = n
  srcErrNone : s.srcErr = none
  errNone : s.streamError = none
  exhEmpty : s.streamExhausted = true → s.srcElems = []
  srcLen : s.srcElems.length ≤ S.length
  posBound : ∀ i, i < n → s.positions.getD i 0 ≤ s.streamBuffer.length
  decomp : ∀ i, i < n →
    s.traces.getD i [] ++ s.streamBuffer.drop (s.positions.getD i 0) ++ s.srcElems = S
  doneFull : ∀ i, i < n → s.doneFlags.getD i false = true → s.traces.getD i [] = S
  doneExh : ∀ i, i < n → s.doneFlags.getD i false = true → s.streamExhausted = true
  frontierEx : ∃ j, j < n ∧ s.positions.getD j 0 = s.streamBuffer.length
  pullsEq : s.pulls = (S.length - s.srcElems.length) +
    (if s.streamExhausted then 1 else 0)

structure SplitInv (S : List α) (n : Nat) (s : SplitterState α ε)
    extends PreInv S n s : Prop where
  minZero : minPos s.positions = 0

/-- Eviction establishes the full invariant from the pre-eviction one. -/
theorem splitInv_cleanup {S : List α} {n : Nat} {s : SplitterState α ε}
    (p : PreInv S n s) : SplitInv S n (cleanupStreamBuffer s) := by
  have hpos_ne : s.positions ≠ [] := by
    intro h
    have hl := p.posLen
    have hn := p.npos
    rw [h] at hl
    simp at hl
    omega
  have hm : ∀ j, j < n → minPos s.positions ≤ s.positions.getD j 0 := fun j hj =>
    minPos_le_of_mem (getD_mem _ _ _ (by rw [p.posLen]; exact hj))
  refine
    { npos := p.npos
      posLen := by simp [cleanupStreamBuffer, p.posLen]
      doneLen := p.doneLen
      tracesLen := p.tracesLen
      srcErrNone := p.srcErrNone
      errNone := p.errNone
      exhEmpty := p.exhEmpty
      srcLen := p.srcLen
      posBound := fun i hi => ?_
      decomp := fun i hi => ?_
      doneFull := p.doneFull
      doneExh := p.doneExh
      frontierEx := ?_
      pullsEq := p.pullsEq
      minZero := ?_ }
  · show (s.positions.map _).getD i 0 ≤ (s.streamBuffer.drop _).length
    rw [getD_map_sub _ _ _ (by rw [p.posLen]; exact hi), List.length_drop]
    exact Nat.sub_le_sub_right (p.posBound i hi) _
  · show s.traces.getD i [] ++
      (s.streamBuffer.drop _).drop ((s.positions.map _).getD i 0) ++ s.srcElems = S
    rw [getD_map_sub _ _ _ (by rw [p.posLen]; exact hi), List.drop_drop,
      Nat.add_sub_cancel' (hm i hi)]
    exact p.decomp i hi
  · obtain ⟨j, hj, hfr⟩ := p.frontierEx
    refine ⟨j, hj, ?_⟩
    show (s.positions.map _).getD j 0 = (s.streamBuffer.drop _).length
    rw [getD_map_sub _ _ _ (by rw [p.posLen]; exact hj), List.length_drop, hfr]
  · exact minPos_map_sub_self _ hpos_ne

/-- Preservation of the invariant by a single `next` call on a valid
cursor index. -/
theorem splitInv_next {S : List α} {n : Nat} {s : SplitterState α ε}
    (inv : SplitInv S n s) {i : Nat} (hi : i < n) : SplitInv S n (next i s).2 := by
  by_cases hdone : s.doneFlags.getD i false
  · have hstep : (next i s).2 = s := by
      rw [next, if_pos hdone]
    rw [hstep]
    exact inv
  · by_cases hlt : s.positions.getD i 0 < s.streamBuffer.length
    · have hstep : (next i s).2 =
        cleanupStreamBuffer
          { s with
            positions := s.positions.set i (s.positions.getD i 0 + 1),
            traces := traceSnoc s.traces i
              (s.streamBuffer.get ⟨s.positions.getD i 0, hlt⟩) } := by
        rw [next, if_neg hdone, dif_pos hlt]
    
      rw [hstep]
      refine splitInv_cleanup
        { npos := inv.npos
          posLen := by simp [inv.posLen]
          doneLen := inv.doneLen
          tracesLen := by simp [traceSnoc, inv.tracesLen]
          srcErrNone := inv.srcErrNone
          errNone := inv.errNone
          exhEmpty := inv.exhEmpty
          srcLen := inv.srcLen
          posBound := fun j hj => ?_
          decomp := fun j hj => ?_
          doneFull := fun j hj hd => ?_
          doneExh := inv.doneExh
          frontierEx := ?_
          pullsEq := inv.pullsEq }
      · show (s.positions.set i (s.positions.getD i 0 + 1)).getD j 0 ≤
          s.streamBuffer.length
        by_cases hji : i = j
        · subst hji
          rw [getD_set_self _ _ _ _ (by rw [inv.posLen]; exact hi)]
          exact hlt
        · rw [getD_set_ne _ _ _ hji]
          exact inv.posBound j hj
      · show (traceSnoc s.traces i _).getD j [] ++
          s.streamBuffer.drop
            ((s.positions.set i (s.positions.getD i 0 + 1)).getD j 0) ++
          s.srcElems = S
        by_cases hji : i = j
        · subst hji
          have hdec := inv.decomp i hi
          rw [List.drop_eq_getElem_cons hlt] at hdec
          rw [traceSnoc, getD_set_self _ _ _ _ (by rw [inv.tracesLen]; exact hi),
            getD_set_self _ _ _ _ (by rw [inv.posLen]; exact hi)]
          simpa [List.append_assoc, List.get_eq_getElem] using hdec
        · rw [traceSnoc, getD_set_ne _ _ _ hji, getD_set_ne _ _ _ hji]
          exact inv.decomp j hj
      · by_cases hji : i = j
        · subst hji
          exact absurd hd hdone
        · show (traceSnoc s.traces i
              (s.streamBuffer.get ⟨s.positions.getD i 0, hlt⟩)).getD j [] = S
          rw [traceSnoc, getD_set_ne _ _ _ hji]
          exact inv.doneFull j hj hd
      · obtain ⟨j, hj, hfr⟩ := inv.frontierEx
        have hji : i ≠ j := by
          intro h
          subst h
          omega
        refine ⟨j, hj, ?_⟩
        show (s.positions.set i (s.positions.getD i 0 + 1)).getD j 0 =
          s.streamBuffer.length
        rw [getD_set_ne _ _ _ hji]
        exact hfr
    · have hposeq : s.positions.getD i 0 = s.streamBuffer.length :=
        Nat.le_antisymm (inv.posBound i hi) (Nat.le_of_not_lt hlt)
      by_cases hexh : s.streamExhausted
      · have hstep : (next i s).2 =
          { s with doneFlags := s.doneFlags.set i true } := by
          rw [next, if_neg hdone, dif_neg hlt, getNextStreamElement, if_pos hexh]
        rw [hstep]
        exact
          { npos := inv.npos
            posLen := inv.posLen
            doneLen := by simp [inv.doneLen]
            tracesLen := inv.tracesLen
            srcErrNone := inv.srcErrNone
            errNone := inv.errNone
            exhEmpty := inv.exhEmpty
            srcLen := inv.srcLen
            posBound := inv.posBound
            decomp := inv.decomp
            doneFull := fun j hj hd => by
              by_cases hji : i = j
              · subst hji
                have hdec := inv.decomp i hi
                rw [hposeq, List.drop_eq_nil_of_le (Nat.le_refl _),
                  inv.exhEmpty hexh] at hdec
                simpa using hdec
              · have hd' : (s.doneFlags.set i true).getD j false = true := hd
                rw [getD_set_ne _ _ _ hji] at hd'
                exact inv.doneFull j hj hd'
            doneExh := fun j hj _ => hexh
            frontierEx := inv.frontierEx
            pullsEq := inv.pullsEq
            minZero := inv.minZero }
      · have hexhF : s.streamExhausted = false := by
          simpa using hexh
        rcases hsrcE : s.srcElems with _ | ⟨a, rest⟩
        · have hstep : (next i s).2 =
            { s with
              pulls := s.pulls + 1,
              streamExhausted := true,
              doneFlags := s.doneFlags.set i true } := by
            rw [next, if_neg hdone, dif_neg hlt, getNextStreamElement,
              if_neg hexh, inv.errNone, hsrcE, inv.srcErrNone]
          rw [hstep]
          exact
            { npos := inv.npos
              posLen := inv.posLen
              doneLen := by simp [inv.doneLen]
              tracesLen := inv.tracesLen
              srcErrNone := inv.srcErrNone
              errNone := inv.errNone
              exhEmpty := fun _ => hsrcE
              srcLen := inv.srcLen
              posBound := inv.posBound
              decomp := inv.decomp
              doneFull := fun j hj hd => by
                by_cases hji : i = j
                · subst hji
                  have hdec := inv.decomp i hi
                  rw [hposeq, List.drop_eq_nil_of_le (Nat.le_refl _), hsrcE] at hdec
                  simpa using hdec
                · have hd' : (s.doneFlags.set i true).getD j false = true := hd
                  rw [getD_set_ne _ _ _ hji] at hd'
                  exact inv.doneFull j hj hd'
              doneExh := fun j hj _ => rfl
              frontierEx := inv.frontierEx
              pullsEq := by
                show s.pulls + 1 = S.length - s.srcElems.length + _
                have hp := inv.pullsEq
                rw [hexhF] at hp
                simp at hp
                simp [hp]
              minZero := inv.minZero }
        · have hstep : (next i s).2 =
            cleanupStreamBuffer
              { s with
                srcElems := rest,
                pulls := s.pulls + 1,
                streamBuffer := s.streamBuffer ++ [a],
                positions := s.positions.set i (s.positions.getD i 0 + 1),
                traces := traceSnoc s.traces i a } := by
            rw [next, if_neg hdone, dif_neg hlt, getNextStreamElement,
              if_neg hexh, inv.errNone, hsrcE]
          have hsl : rest.length + 1 ≤ S.length := by
            have := inv.srcLen
            rw [hsrcE] at this
            simpa using this
          rw [hstep]
          refine splitInv_cleanup
            { npos := inv.npos
              posLen := by simp [inv.posLen]
              doneLen := inv.doneLen
              tracesLen := by simp [traceSnoc, inv.tracesLen]
              srcErrNone := inv.srcErrNone
              errNone := inv.errNone
              exhEmpty := fun h => absurd h hexh
              srcLen := by
                show rest.length ≤ S.length
                omega
              posBound := fun j hj => ?_
              decomp := fun j hj => ?_
              doneFull := fun j hj hd => absurd (inv.doneExh j hj hd) hexh
              doneExh := fun j hj hd => absurd (inv.doneExh j hj hd) hexh
              frontierEx := ?_
              pullsEq := ?_ }
          · show (s.positions.set i (s.positions.getD i 0 + 1)).getD j 0 ≤
              (s.streamBuffer ++ [a]).length
            rw [List.length_append]
            have h1 : ([a] : List α).length = 1 := rfl
            by_cases hji : i = j
            · subst hji
              rw [getD_set_self _ _ _ _ (by rw [inv.posLen]; exact hi)]
              omega
            · rw [getD_set_ne _ _ _ hji]
              have := inv.posBound j hj
              omega
          · show (traceSnoc s.traces i a).getD j [] ++
              (s.streamBuffer ++ [a]).drop
                ((s.positions.set i (s.positions.getD i 0 + 1)).getD j 0) ++
              rest = S
            by_cases hji : i = j
            · subst hji
              rw [traceSnoc, getD_set_self _ _ _ _ (by rw [inv.tracesLen]; exact hi),
                getD_set_self _ _ _ _ (by rw [inv.posLen]; exact hi),
                List.drop_eq_nil_of_le (by
                  rw [List.length_append, hposeq]
                  have h1 : ([a] : List α).length = 1 := rfl
                  omega)]
              have hdec := inv.decomp i hi
              rw [hposeq, List.drop_eq_nil_of_le (Nat.le_refl _), hsrcE] at hdec
              simpa [List.append_assoc] using hdec
            · rw [traceSnoc, getD_set_ne _ _ _ hji, getD_set_ne _ _ _ hji,
                List.drop_append_of_le_length (inv.posBound j hj)]
              have hdec := inv.decomp j hj
              rw [hsrcE] at hdec
              simpa [List.append_assoc] using hdec
          · refine ⟨i, hi, ?_⟩
            show (s.positions.set i (s.positions.getD i 0 + 1)).getD i 0 =
              (s.streamBuffer ++ [a]).length
            rw [getD_set_self _ _ _ _ (by rw [inv.posLen]; exact hi),
              List.length_append, hposeq]
            rfl
          · show s.pulls + 1 = S.length - rest.length + _
            have hp := inv.pullsEq
            rw [hexhF, hsrcE] at hp
            simp at hp
            simp [hexhF, hp]
            omega

/-- The state `createTeeIterators` sets up satisfies the invariant. -/
theorem splitInv_init (S : List α) (n : Nat) (hn : 0 < n) :
    SplitInv S n (initState S (none : Option ε) n) := by
  refine
    { npos := hn
      posLen := by simp [initState]
      doneLen := by simp [initState]
      tracesLen := by simp [initState]
      srcErrNone := rfl
      errNone := rfl
      exhEmpty := fun h => absurd h (by simp [initState])
      srcLen := Nat.le_refl _
      posBound := fun i hi => ?_
      decomp := fun i hi => ?_
      doneFull := fun i hi hd => ?_
      doneExh := fun i hi hd => ?_
      frontierEx := ⟨0, hn, ?_⟩
      pullsEq := by simp [initState]
      minZero := ?_ }
  · show (List.replicate n 0).getD i 0 ≤ ([] : List α).length
    rw [getD_replicate _ _ hi]
    exact Nat.zero_le _
  · show (List.replicate n ([] : List α)).getD i [] ++
      (([] : List α).drop ((List.replicate n 0).getD i 0)) ++ S = S
    rw [getD_replicate _ _ hi, getD_replicate _ _ hi]
    simp
  · have hd' : (List.replicate n false).getD i false = true := hd
    rw [getD_replicate _ _ hi] at hd'
    exact absurd hd' (by simp)
  · have hd' : (List.replicate n false).getD i false = true := hd
    rw [getD_replicate _ _ hi] at hd'
    exact absurd hd' (by simp)
  · show (List.replicate n 0).getD 0 0 = ([] : List α).length
    rw [getD_replicate _ _ hn]
    rfl
  · show minPos (List.replicate n 0) = 0
    exact Nat.le_zero.1 (minPos_le_of_mem (List.mem_replicate.2 ⟨by omega, rfl⟩))

/-- The invariant is preserved by any schedule of valid `next` calls. -/
theorem splitInv_run {S : List α} {n : Nat} :
    ∀ (sched : List Nat) (s : SplitterState α ε), SplitInv S n s →
      (∀ j ∈ sched, j < n) → SplitInv S n (runSchedule sched s)
  | [], _, inv, _ => inv
  | i :: rest, s, inv, hs =>
    splitInv_run rest (next i s).2
      (splitInv_next inv (hs i (List.mem_cons_self _ _)))
      (fun j hj => hs j (List.mem_cons_of_mem _ hj))

/-- `getNextStreamElement` does not touch the per-cursor bookkeeping. -/
theorem getNext_frame (s : SplitterState α ε) :
    (getNextStreamElement s).2.positions = s.positions ∧
    (getNextStreamElement s).2.streamBuffer = s.streamBuffer ∧
    (getNextStreamElement s).2.doneFlags = s.doneFlags ∧
    (getNextStreamElement s).2.traces = s.traces := by
  rw [getNextStreamElement]
  by_cases h1 : s.streamExhausted
  · rw [if_pos h1]
    exact ⟨rfl, rfl, rfl, rfl⟩
  · rw [if_neg h1]
    rcases h2 : s.streamError with _ | e
    · rcases h3 : s.srcElems with _ | ⟨a, rest⟩
      · rcases h4 : s.srcErr with _ | e
        · exact ⟨rfl, rfl, rfl, rfl⟩
        · exact ⟨rfl, rfl, rfl, rfl⟩
      · exact ⟨rfl, rfl, rfl, rfl⟩
    · exact ⟨rfl, rfl, rfl, rfl⟩

theorem getD_set_true_of_getD_true {l : List Bool} {i j : Nat}
    (h : l.getD i false = true) : (l.set j true).getD i false = true := by
  by_cases hij : j = i
  · subst hij
    have hlen : j < l.length := by
      by_contra hlen
      rw [getD_default_of_le _ _ (Nat.le_of_not_lt hlen)] at h
      exact absurd h (by simp)
    rw [getD_set_self _ _ _ _ hlen]
  · rw [getD_set_ne _ _ _ hij]
    exact h

/-- A terminal cursor stays terminal across any other `next` call. -/
theorem cursorDone_mono {s : SplitterState α ε} {i : Nat}
    (h : s.doneFlags.getD i false = true) (j : Nat) :
    (next j s).2.doneFlags.getD i false = true := by
  rw [next]
  by_cases hdone : s.doneFlags.getD j false
  · rw [if_pos hdone]
    exact h
  · rw [if_neg hdone]
    by_cases hlt : s.positions.getD j 0 < s.streamBuffer.length
    · rw [dif_pos hlt]
      exact h
    · rw [dif_neg hlt]
      rcases hg : getNextStreamElement s with ⟨r, s1⟩
      have hf := (getNext_frame s).2.2.1
      rw [hg] at hf
      cases r with
      | done =>
        show (s1.doneFlags.set j true).getD i false = true
        rw [hf]
        exact getD_set_true_of_getD_true h
      | thrown e =>
        show s1.doneFlags.getD i false = true
        rw [hf]
        exact h
      | value a =>
        show s1.doneFlags.getD i false = true
        rw [hf]
        exact h

theorem cursorDone_mono_run {i : Nat} :
    ∀ (sched : List Nat) (s : SplitterState α ε),
      s.doneFlags.getD i false = true →
      (runSchedule sched s).doneFlags.getD i false = true
  | [], _, h => h
  | j :: rest, s, h => cursorDone_mono_run rest (next j s).2 (cursorDone_mono h j)

/-- On an error-free source, every `next` call on a live valid cursor
either terminates the cursor or yields exactly one more element. -/
theorem next_progress {S : List α} {n : Nat} {s : SplitterState α ε}
    (inv : SplitInv S n s) {i : Nat} (hi : i < n) :
    (next i s).2.doneFlags.getD i false = true ∨
    ((next i s).2.traces.getD i []).length = (s.traces.getD i []).length + 1 := by
  by_cases hdone : s.doneFlags.getD i false
  · left
    have hstep : (next i s).2 = s := by rw [next, if_pos hdone]
    rw [hstep]
    exact hdone
  · by_cases hlt : s.positions.getD i 0 < s.streamBuffer.length
    · right
      have hstep : (next i s).2 =
        cleanupStreamBuffer
          { s with
            positions := s.positions.set i (s.positions.getD i 0 + 1),
            traces := traceSnoc s.traces i
              (s.streamBuffer.get ⟨s.positions.getD i 0, hlt⟩) } := by
        rw [next, if_neg hdone, dif_pos hlt]
      rw [hstep]
      show ((traceSnoc s.traces i _).getD i []).length = _
      rw [traceSnoc, getD_set_self _ _ _ _ (by rw [inv.tracesLen]; exact hi)]
      simp
    · by_cases hexh : s.streamExhausted
      · left
        have hstep : (next i s).2 =
          { s with doneFlags := s.doneFlags.set i true } := by
          rw [next, if_neg hdone, dif_neg hlt, getNextStreamElement, if_pos hexh]
        rw [hstep]
        show (s.doneFlags.set i true).getD i false = true
        rw [getD_set_self _ _ _ _ (by rw [inv.doneLen]; exact hi)]
      · rcases hsrcE : s.srcElems with _ | ⟨a, rest⟩
        · left
          have hstep : (next i s).2 =
            { s with
              pulls := s.pulls + 1,
              streamExhausted := true,
              doneFlags := s.doneFlags.set i true } := by
            rw [next, if_neg hdone, dif_neg hlt, getNextStreamElement,
              if_neg hexh, inv.errNone, hsrcE, inv.srcErrNone]
          rw [hstep]
          show (s.doneFlags.set i true).getD i false = true
          rw [getD_set_self _ _ _ _ (by rw [inv.doneLen]; exact hi)]
        · right
          have hstep : (next i s).2 =
            cleanupStreamBuffer
              { s with
                srcElems := rest,
                pulls := s.pulls + 1,
                streamBuffer := s.streamBuffer ++ [a],
                positions := s.positions.set i (s.positions.getD i 0 + 1),
                traces := traceSnoc s.traces i a } := by
            rw [next, if_neg hdone, dif_neg hlt, getNextStreamElement,
              if_neg hexh, inv.errNone, hsrcE]
          rw [hstep]
          show ((traceSnoc s.traces i a).getD i []).length = _
          rw [traceSnoc, getD_set_self _ _ _ _ (by rw [inv.tracesLen]; exact hi)]
          simp

/-- A cursor's trace never exceeds the source length. -/
theorem trace_length_le {S : List α} {n : Nat} {s : SplitterState α ε}
    (inv : SplitInv S n s) {i : Nat} (hi : i < n) :
    (s.traces.getD i []).length ≤ S.length := by
  have hdec := congrArg List.length (inv.decomp i hi)
  rw [List.length_append, List.length_append] at hdec
  omega

/-- `S.length + 1` consecutive `next` calls fully drain a cursor. -/
theorem drain_cursor {S : List α} {n i : Nat} :
    ∀ (k : Nat) (s : SplitterState α ε), SplitInv S n s → i < n →
      S.length + 1 ≤ (s.traces.getD i []).length + k →
      (runSchedule (List.replicate k i) s).doneFlags.getD i false = true
  | 0, s, inv, hi, hk => by
    exfalso
    have := trace_length_le inv hi
    omega
  | k + 1, s, inv, hi, hk => by
    show (runSchedule (List.replicate k i) (next i s).2).doneFlags.getD i false = true
    rcases next_progress inv hi with hd | htr
    · exact cursorDone_mono_run (List.replicate k i) _ hd
    · exact drain_cursor k _ (splitInv_next inv hi) hi (by omega)

theorem runSchedule_append :
    ∀ (l1 l2 : List Nat) (s : SplitterState α ε),
      runSchedule (l1 ++ l2) s = runSchedule l2 (runSchedule l1 s)
  | [], _, _ => rfl
  | i :: rest, l2, s => runSchedule_append rest l2 (next i s).2

/-- Running `k` calls per cursor, cursor after cursor, drains every cursor
named in the list, provided `k` is at least `S.length + 1`. -/
theorem drain_all {S : List α} {n k : Nat} (hk : S.length + 1 ≤ k) :
    ∀ (l : List Nat) (s : SplitterState α ε), SplitInv S n s →
      (∀ j ∈ l, j < n) → ∀ i ∈ l,
      (runSchedule (l.flatMap (fun j => List.replicate k j)) s).doneFlags.getD
        i false = true
  | [], _, _, _, i, hi => absurd hi (List.not_mem_nil i)
  | j :: rest, s, inv, hl, i, hi => by
    rw [List.flatMap_cons, runSchedule_append]
    rcases List.mem_cons.1 hi with rfl | hmem
    · have hdone := drain_cursor k s inv (hl i (List.mem_cons_self _ _)) (by omega)
      exact cursorDone_mono_run _ _ hdone
    · have hinv2 := splitInv_run (List.replicate k j) s inv (fun x hx => by
        rw [List.eq_of_mem_replicate hx]
        exact hl j (List.mem_cons_self _ _))
      exact drain_all hk rest _ hinv2
        (fun x hx => hl x (List.mem_cons_of_mem _ hx)) i hmem

theorem drainSchedule_mem {n len j : Nat} (hj : j ∈ drainSchedule n len) :
    j < n := by
  rw [drainSchedule] at hj
  obtain ⟨a, ha, hj2⟩ := List.mem_flatMap.1 hj
  rw [List.eq_of_mem_replicate hj2]
  exact List.mem_range.1 ha

/-- After the draining schedule, every cursor is terminal. -/
theorem drainSchedule_all_done {S : List α} {n : Nat}
    {s : SplitterState α ε} (inv : SplitInv S n s) {i : Nat} (hi : i < n) :
    (runSchedule (drainSchedule n S.length) s).doneFlags.getD i false = true := by
  rw [drainSchedule]
  exact drain_all (by omega) (List.range n) s inv
    (fun j hj => List.mem_range.1 hj) i (List.mem_range.2 hi)

/-- After the draining schedule, every cursor has yielded exactly `S`. -/
theorem run_drain_trace {S : List α} {n : Nat}
    (s : SplitterState α ε) (inv : SplitInv S n s) {i : Nat} (hi : i < n) :
    (runSchedule (drainSchedule n S.length) s).traces.getD i [] = S := by
  have hinv2 := splitInv_run (drainSchedule n S.length) s inv
    (fun j hj => drainSchedule_mem hj)
  exact hinv2.doneFull i hi (drainSchedule_all_done inv hi)

/-- Each teed cursor of `teeConsumers` yields exactly the source array. -/
theorem teeTraces_eq (S : List JSVal) {n : Nat} (hn : 0 < n) {i : Nat}
    (hi : i < n) : (teeTraces S n).getD i [] = S := by
  rw [teeTraces]
  exact run_drain_trace _ (splitInv_init S n hn) hi

theorem teeTraces_length (S : List JSVal) (n : Nat) (hn : 0 < n) :
    (teeTraces S n).length = n := by
  rw [teeTraces]
  exact (splitInv_run (drainSchedule n S.length) _
    (splitInv_init S n hn) (fun j hj => drainSchedule_mem hj)).tracesLen

/-! ### Consumer loop characterizations -/

theorem consumeLoop_forEach (f : List JSVal → JSVal) :
    ∀ (elems : List JSVal) (st : LoopState),
      consumeLoop "forEach" f st elems =
        .ok { st with elementIdx := st.elementIdx + elems.length } := by
  intro elems
  induction elems with
  | nil => intro st; simp [consumeLoop]
  | cons x xs ih =>
    intro st
    simp [consumeLoop]
    rw [ih]
    simp
    omega

theorem consumeLoop_map (f : List JSVal → JSVal) :
    ∀ (elems : List JSVal) (st : LoopState),
      consumeLoop "map" f st elems =
        .ok { st with
          mapResult := st.mapResult ++ jsMapSpec f st.elementIdx elems,
          elementIdx := st.elementIdx + elems.length } := by
  intro elems
  induction elems with
  | nil => intro st; simp [consumeLoop, jsMapSpec]
  | cons x xs ih =>
    intro st
    simp [consumeLoop]
    rw [ih]
    simp [jsMapSpec, List.append_assoc]
    omega

theorem consumeLoop_filter (f : List JSVal → JSVal) :
    ∀ (elems : List JSVal) (st : LoopState),
      consumeLoop "filter" f st elems =
        .ok { st with
          filterResult := st.filterResult ++ jsFilterSpec f st.elementIdx elems,
          elementIdx := st.elementIdx + elems.length } := by
  intro elems
  induction elems with
  | nil => intro st; simp [consumeLoop, jsFilterSpec]
  | cons x xs ih =>
    intro st
    simp [consumeLoop]
    rw [ih]
    by_cases ht : truthy (f [x, .num st.elementIdx])
    · simp [jsFilterSpec, ht, List.append_assoc]
      omega
    · simp [jsFilterSpec, ht]
      omega

/-- The reduce loop below any state whose index is already positive is the
plain indexed fold: the undefined-seed check can no longer fire. -/
theorem consumeLoop_reduce_go (f : List JSVal → JSVal) :
    ∀ (elems : List JSVal) (mr fr : List JSVal) (acc : JSVal) (i : Nat),
      consumeLoop "reduce" f ⟨mr, acc, fr, i + 1⟩ elems =
        .ok ⟨mr, jsReduceSpec f acc (i + 1) elems, fr, (i + 1) + elems.length⟩ := by
  intro elems
  induction elems with
  | nil => intro mr fr acc i; simp [consumeLoop, jsReduceSpec]
  | cons x xs ih =>
    intro mr fr acc i
    simp [consumeLoop]
    have := ih mr fr (f [acc, x, .num (i + 1)]) (i + 1)
    rw [show i + 1 + 1 = i + 2 from rfl] at this
    rw [this]
    simp [jsReduceSpec]
    omega

theorem consumeLoop_unknown (k : String) (f : List JSVal → JSVal)
    (h1 : k ≠ "forEach") (h2 : k ≠ "map") (h3 : k ≠ "reduce") (h4 : k ≠ "filter")
    (x : JSVal) (xs : List JSVal) (st : LoopState) :
    consumeLoop k f st (x :: xs) =
      .error (.error ("Unknown consumer kind: " ++ k)) := by
  simp [consumeLoop, h1, h2, h3, h4]

theorem processConsumer_forEach (f : List JSVal → JSVal) (iv : Option JSVal)
    (S : List JSVal) : processConsumer ⟨"forEach", f, iv⟩ S = .ok .undef := by
  simp [processConsumer, consumeLoop_forEach]

theorem processConsumer_map (f : List JSVal → JSVal) (iv : Option JSVal)
    (S : List JSVal) :
    processConsumer ⟨"map", f, iv⟩ S = .ok (.arr (jsMapSpec f 0 S)) := by
  simp [processConsumer, consumeLoop_map]

theorem processConsumer_filter (f : List JSVal → JSVal) (iv : Option JSVal)
    (S : List JSVal) :
    processConsumer ⟨"filter", f, iv⟩ S = .ok (.arr (jsFilterSpec f 0 S)) := by
  simp [processConsumer, consumeLoop_filter]

theorem processConsumer_reduce_init (f : List JSVal → JSVal) (iv : JSVal)
    (hiv : isUndef iv = false) (S : List JSVal) :
    processConsumer ⟨"reduce", f, some iv⟩ S = .ok (jsReduceSpec f iv 0 S) := by
  rcases S with _ | ⟨x, xs⟩
  · simp [processConsumer, consumeLoop, jsReduceSpec]
  · have hgo := consumeLoop_reduce_go f xs [] [] (f [iv, x, .num 0]) 0
    simp at hgo
    simp [processConsumer, consumeLoop, hiv, hgo, jsReduceSpec]

theorem processConsumer_reduce_seed (f : List JSVal → JSVal) (iv : Option JSVal)
    (hiv : iv.getD .undef = .undef) (a : JSVal) (xs : List JSVal) :
    processConsumer ⟨"reduce", f, iv⟩ (a :: xs) = .ok (jsReduceSpec f a 1 xs) := by
  have hgo := consumeLoop_reduce_go f xs [] [] a 0
  simp at hgo
  simp [processConsumer, consumeLoop, hiv, isUndef, hgo]

theorem processConsumer_unknown_cons (k : String) (f : List JSVal → JSVal)
    (iv : Option JSVal)
    (h1 : k ≠ "forEach") (h2 : k ≠ "map") (h3 : k ≠ "reduce") (h4 : k ≠ "filter")
    (x : JSVal) (xs : List JSVal) :
    processConsumer ⟨k, f, iv⟩ (x :: xs) =
      .error (.error ("Unknown consumer kind: " ++ k)) := by
  simp [processConsumer, consumeLoop_unknown k f h1 h2 h3 h4]

theorem processConsumer_unknown_nil (k : String) (f : List JSVal → JSVal)
    (iv : Option JSVal)
    (h1 : k ≠ "forEach") (h2 : k ≠ "map") (h3 : k ≠ "reduce") (h4 : k ≠ "filter") :
    processConsumer ⟨k, f, iv⟩ [] = .ok (.num 0) := by
  simp [processConsumer, consumeLoop, h1, h2, h3, h4]

/-! ### Validation characterizations -/

theorem validateConsumers_error_shape :
    ∀ (cs : List ConsumerArg) (e : JSError),
      validateConsumers cs = .error e → ∃ m, e = .typeError m
  | [], e, h => by simp [validateConsumers] at h
  | .nonObject :: rest, e, h => by
    rw [validateConsumers] at h
    exact ⟨_, (Except.error.inj h).symm⟩
  | .obj none f iv :: rest, e, h => by
    rw [validateConsumers] at h
    exact ⟨_, (Except.error.inj h).symm⟩
  | .obj (some k) none iv :: rest, e, h => by
    rw [validateConsumers] at h
    exact ⟨_, (Except.error.inj h).symm⟩
  | .obj (some k) (some fn) iv :: rest, e, h => by
    rw [validateConsumers] at h
    rcases hrec : validateConsumers rest with e2 | tail
    · rw [hrec] at h
      have h2 : (Except.error e2 : Except JSError (List TeeConsumer)) = .error e := h
      exact validateConsumers_error_shape rest e
        (by rw [hrec, Except.error.inj h2])
    · rw [hrec] at h
      exact Except.noConfusion
        (show (Except.ok (⟨k, fn, iv⟩ :: tail) :
          Except JSError (List TeeConsumer)) = .error e from h)

theorem validateConsumers_length :
    ∀ (cs : List ConsumerArg) (fns : List TeeConsumer),
      validateConsumers cs = .ok fns → fns.length = cs.length
  | [], fns, h => by
    rw [validateConsumers] at h
    rw [← Except.ok.inj h]
    rfl
  | .nonObject :: rest, fns, h => by
    rw [validateConsumers] at h
    exact absurd h (by simp)
  | .obj none f iv :: rest, fns, h => by
    rw [validateConsumers] at h
    exact absurd h (by simp)
  | .obj (some k) none iv :: rest, fns, h => by
    rw [validateConsumers] at h
    exact absurd h (by simp)
  | .obj (some k) (some fn) iv :: rest, fns, h => by
    rw [validateConsumers] at h
    rcases hrec : validateConsumers rest with e2 | tail
    · rw [hrec] at h
      exact Except.noConfusion
        (show (Except.error e2 : Except JSError (List TeeConsumer)) = .ok fns from h)
    · rw [hrec] at h
      have h2 : (Except.ok (⟨k, fn, iv⟩ :: tail) :
        Except JSError (List TeeConsumer)) = .ok fns := h
      rw [← Except.ok.inj h2]
      simp [validateConsumers_length rest tail hrec]

/-! ### Consumer runner refinement -/

theorem processAll_eq_direct :
    ∀ (fns : List TeeConsumer) (ts : List (List JSVal)) (S : List JSVal),
      fns.length ≤ ts.length →
      (∀ i, i < fns.length → ts.getD i [] = S) →
      processAll fns ts = processAllDirect S fns
  | [], _, _, _, _ => rfl
  | c :: cs, [], S, hlen, _ => by simp at hlen
  | c :: cs, t :: ts2, S, hlen, hts => by
    have ht : t = S := hts 0 (by simp)
    have hrec := processAll_eq_direct cs ts2 S (by simpa using hlen)
      (fun i hi => hts (i + 1) (by simpa using Nat.succ_lt_succ hi))
    simp only [processAll, processAllDirect, List.headD, List.tail]
    rw [ht, hrec]

theorem processAllDirect_length :
    ∀ (fns : List TeeConsumer) (S rs : List JSVal),
      processAllDirect S fns = .ok rs → rs.length = fns.length
  | [], S, rs, h => by
    rw [processAllDirect] at h
    rw [← Except.ok.inj h]
    rfl
  | c :: cs, S, rs, h => by
    rw [processAllDirect] at h
    rcases h1 : processConsumer c S with e | r
    · rw [h1] at h
      exact Except.noConfusion
        (show (Except.error e : Except JSError (List JSVal)) = .ok rs from h)
    · rw [h1] at h
      rcases h2 : processAllDirect S cs with e2 | rs2
      · rw [h2] at h
        exact Except.noConfusion
          (show (Except.error e2 : Except JSError (List JSVal)) = .ok rs from h)
      · rw [h2] at h
        have h3 : (Except.ok (r :: rs2) : Except JSError (List JSVal)) = .ok rs := h
        rw [← Except.ok.inj h3]
        simp [processAllDirect_length cs S rs2 h2]

/-- The consumer runner built on the splitter computes, descriptor by
descriptor, exactly the direct per-descriptor processing of the array. -/
theorem teeConsumers_eq_direct (S : List JSVal) (cs : List ConsumerArg)
    (fns : List TeeConsumer) (hne : cs ≠ [])
    (hv : validateConsumers cs = .ok fns) :
    teeConsumers S cs = processAllDirect S fns := by
  have hlen : fns.length = cs.length := validateConsumers_length cs fns hv
  have hn : 0 < cs.length := by
    cases cs
    · exact absurd rfl hne
    · simp
  have hne2 : cs.isEmpty = false := by
    cases cs
    · exact absurd rfl hne
    · rfl
  rw [teeConsumers, hne2]
  simp only [Bool.false_eq_true, if_false]
  rw [hv]
  show processAll fns (teeTraces S cs.length) = _
  exact processAll_eq_direct fns (teeTraces S cs.length) S
    (by rw [teeTraces_length S cs.length hn, hlen])
    (fun i hi => teeTraces_eq S hn (by omega))

/-- Eviction never discards elements at or beyond a cursor's read
position: the window a cursor still has to read is preserved. -/
theorem cleanup_drop_pin {s2 : SplitterState α ε} {i : Nat}
    (hi : i < s2.positions.length) :
    (cleanupStreamBuffer s2).streamBuffer.drop
      ((cleanupStreamBuffer s2).positions.getD i 0) =
      s2.streamBuffer.drop (s2.positions.getD i 0) := by
  show (s2.streamBuffer.drop _).drop ((s2.positions.map _).getD i 0) = _
  rw [getD_map_sub _ _ _ hi, List.drop_drop,
    Nat.add_sub_cancel' (minPos_le_of_mem (getD_mem _ _ _ hi))]

/-! ### Claim theorems -/

/-- C1: for every finite source `S`, every `n ≥ 1`, and every interleaving
of `next()` calls over the `n` cursors of the splitter, each cursor's
yielded sequence is a prefix of `S`; a cursor that has signalled end has
yielded exactly `S`; and continuing any interleaving with a full drain
brings every cursor's yielded sequence to exactly `S` — so each cursor
yields the elements of `S`, element for element, in source order. -/
theorem split_cursors_yield_source {α ε : Type} (S : List α) (n : Nat)
    (hn : 0 < n) (sched : List Nat) (hs : ∀ j ∈ sched, j < n)
    (i : Nat) (hi : i < n) :
    (∃ r, cursorTrace (runSchedule sched (initState S (none : Option ε) n)) i
      ++ r = S) ∧
    (cursorDone (runSchedule sched (initState S (none : Option ε) n)) i = true →
      cursorTrace (runSchedule sched (initState S (none : Option ε) n)) i = S) ∧
    cursorTrace
      (runSchedule (drainSchedule n S.length)
        (runSchedule sched (initState S (none : Option ε) n))) i = S := by
  have inv := splitInv_run sched (initState S (none : Option ε) n)
    (splitInv_init S n hn) hs
  simp only [cursorTrace, cursorDone]
  have hdec := inv.decomp i hi
  rw [List.append_assoc] at hdec
  exact ⟨⟨_, hdec⟩, fun hd => inv.doneFull i hi hd,
    run_drain_trace _ inv hi⟩

theorem split_cursors_yield_source_witness :
    (∃ r, cursorTrace (runSchedule [0, 0, 0, 0, 1, 1, 1, 1]
      (initState [10, 20, 30] (none : Option Unit) 2)) 0 ++ r = [10, 20, 30]) ∧
    (cursorDone (runSchedule [0, 0, 0, 0, 1, 1, 1, 1]
      (initState [10, 20, 30] (none : Option Unit) 2)) 0 = true →
      cursorTrace (runSchedule [0, 0, 0, 0, 1, 1, 1, 1]
        (initState [10, 20, 30] (none : Option Unit) 2)) 0 = [10, 20, 30]) ∧
    cursorTrace
      (runSchedule (drainSchedule 2 3)
        (runSchedule [0, 0, 0, 0, 1, 1, 1, 1]
          (initState [10, 20, 30] (none : Option Unit) 2))) 0 = [10, 20, 30] :=
  split_cursors_yield_source [10, 20, 30] 2 (by decide)
    [0, 0, 0, 0, 1, 1, 1, 1] (by decide) 0 (by decide)

/-- C2: the source is pulled at most `S.length + 1` times under any
interleaving, and exactly `S.length + 1` times (one pull per element plus
the terminating end pull) once every cursor has been drained — so no
element is ever pulled from the source twice. -/
theorem split_pull_count {α ε : Type} (S : List α) (n : Nat) (hn : 0 < n)
    (sched : List Nat) (hs : ∀ j ∈ sched, j < n) :
    (runSchedule sched (initState S (none : Option ε) n)).pulls ≤ S.length + 1 ∧
    ((∀ i, i < n →
        cursorDone (runSchedule sched (initState S (none : Option ε) n)) i = true) →
      (runSchedule sched (initState S (none : Option ε) n)).pulls = S.length + 1) := by
  have inv := splitInv_run sched (initState S (none : Option ε) n)
    (splitInv_init S n hn) hs
  constructor
  · rw [inv.pullsEq]
    by_cases hb : (runSchedule sched (initState S (none : Option ε) n)).streamExhausted
    · rw [if_pos hb]
      omega
    · rw [if_neg hb]
      omega
  · intro hall
    have hexh := inv.doneExh 0 hn (hall 0 hn)
    have hsrc := inv.exhEmpty hexh
    rw [inv.pullsEq, hsrc, if_pos hexh]
    simp

theorem split_pull_count_witness :
    (runSchedule (drainSchedule 2 3)
      (initState [10, 20, 30] (none : Option Unit) 2)).pulls = 3 + 1 :=
  (split_pull_count [10, 20, 30] 2 (by decide) (drainSchedule 2 3)
    (fun _ hj => drainSchedule_mem hj)).2 (by decide)

/-- C3 (amended): in every state reachable by `next()` calls, the buffer
length equals the maximum read position across all cursors (terminal ones
included) minus the minimum read position across all cursors; the minimum
is in fact always 0, and every read position lies between 0 and the
buffer length. -/
theorem split_buffer_length {α ε : Type} (S : List α) (n : Nat) (hn : 0 < n)
    (sched : List Nat) (hs : ∀ j ∈ sched, j < n) :
    (runSchedule sched (initState S (none : Option ε) n)).streamBuffer.length =
      maxPos (runSchedule sched (initState S (none : Option ε) n)).positions -
        minPos (runSchedule sched (initState S (none : Option ε) n)).positions ∧
    minPos (runSchedule sched (initState S (none : Option ε) n)).positions = 0 ∧
    (∀ i, i < n →
      (runSchedule sched (initState S (none : Option ε) n)).positions.getD i 0 ≤
        (runSchedule sched (initState S (none : Option ε) n)).streamBuffer.length) := by
  have inv := splitInv_run sched (initState S (none : Option ε) n)
    (splitInv_init S n hn) hs
  have hmax : maxPos (runSchedule sched (initState S (none : Option ε) n)).positions =
      (runSchedule sched (initState S (none : Option ε) n)).streamBuffer.length := by
    apply Nat.le_antisymm
    · apply maxPos_le_of_forall
      intro x hx
      obtain ⟨idx, hidx, rfl⟩ := List.mem_iff_getElem.1 hx
      have h2 := inv.posBound idx (by rw [← inv.posLen]; exact hidx)
      rwa [getD_eq_getElem _ _ _ hidx] at h2
    · obtain ⟨j, hj, hfr⟩ := inv.frontierEx
      rw [← hfr]
      exact le_maxPos_of_mem (getD_mem _ _ _ (by rw [inv.posLen]; exact hj))
  refine ⟨?_, inv.minZero, fun i hi => inv.posBound i hi⟩
  rw [hmax, inv.minZero]
  omega

theorem split_buffer_length_witness :
    (runSchedule [0, 1, 0] (initState [10, 20, 30] (none : Option Unit) 2)).streamBuffer.length =
      maxPos (runSchedule [0, 1, 0] (initState [10, 20, 30] (none : Option Unit) 2)).positions -
        minPos (runSchedule [0, 1, 0] (initState [10, 20, 30] (none : Option Unit) 2)).positions :=
  (split_buffer_length [10, 20, 30] 2 (by decide) [0, 1, 0] (by decide)).1

/-- C3 counterexample: run `split([1, 2], 2)` and call `next()` three
times on cursor 0 (draining it to its end signal).  The buffer then still
holds both elements for the lagging cursor 1, but the claimed expression
— maximum read position across live, non-terminal cursors minus minimum
across all — is 0, not 2. -/
theorem split_buffer_length_live_ce :
    (runSchedule [0, 0, 0]
      (initState [1, 2] (none : Option Unit) 2)).streamBuffer.length = 2 ∧
    maxLivePos
        (runSchedule [0, 0, 0] (initState [1, 2] (none : Option Unit) 2)).positions
        (runSchedule [0, 0, 0] (initState [1, 2] (none : Option Unit) 2)).doneFlags -
      minPos (runSchedule [0, 0, 0]
        (initState [1, 2] (none : Option Unit) 2)).positions = 0 ∧
    decide ((runSchedule [0, 0, 0]
        (initState [1, 2] (none : Option Unit) 2)).streamBuffer.length =
      maxLivePos
          (runSchedule [0, 0, 0] (initState [1, 2] (none : Option Unit) 2)).positions
          (runSchedule [0, 0, 0] (initState [1, 2] (none : Option Unit) 2)).doneFlags -
        minPos (runSchedule [0, 0, 0]
          (initState [1, 2] (none : Option Unit) 2)).positions) = false := by
  refine ⟨rfl, rfl, rfl⟩

/-- C4 (amended): when a pull raises, the error is captured and re-raised
to the pulling cursor, and from then on the source is never pulled again:
any cursor reaching the frontier has the same captured error re-raised
with no new pull and the state unchanged.  However no cursor is marked
terminal by the error — the done flags are untouched, so the same cursor
observes the error again on each further frontier `next()`. -/
theorem source_error_capture_replay {α ε : Type} :
    (∀ (s : SplitterState α ε) (e : ε) (i : Nat),
      s.streamExhausted = false → s.streamError = none → s.srcElems = [] →
      s.srcErr = some e → cursorDone s i = false →
      ¬ s.positions.getD i 0 < s.streamBuffer.length →
      next i s = (.thrown e,
        { s with streamError := some e, pulls := s.pulls + 1 })) ∧
    (∀ (s : SplitterState α ε) (e : ε) (i : Nat),
      s.streamExhausted = false → s.streamError = some e →
      (next i s).2.pulls = s.pulls ∧
      (next i s).2.streamError = some e ∧
      (next i s).2.doneFlags = s.doneFlags ∧
      (cursorDone s i = false →
        ¬ s.positions.getD i 0 < s.streamBuffer.length →
        next i s = (.thrown e, s))) := by
  constructor
  · intro s e i hexh herr hsrc hserr hcd hfr
    have hdone2 : ¬ s.doneFlags.getD i false = true := by
      rw [show s.doneFlags.getD i false = cursorDone s i from rfl, hcd]
      simp
    have hexh2 : ¬ s.streamExhausted = true := by simp [hexh]
    rw [next, if_neg hdone2, dif_neg hfr, getNextStreamElement, if_neg hexh2,
      herr, hsrc, hserr]
  · intro s e i hexh herr
    have hexh2 : ¬ s.streamExhausted = true := by simp [hexh]
    by_cases hdone : s.doneFlags.getD i false
    · have hstep : next i s = (.done, s) := by rw [next, if_pos hdone]
      rw [hstep]
      exact ⟨rfl, herr, rfl, fun hcd _ => absurd hdone (by
        rw [show s.doneFlags.getD i false = cursorDone s i from rfl, hcd]
        simp)⟩
    · by_cases hlt : s.positions.getD i 0 < s.streamBuffer.length
      · have hstep : next i s =
          (.value (s.streamBuffer.get ⟨s.positions.getD i 0, hlt⟩),
            cleanupStreamBuffer
              { s with
                positions := s.positions.set i (s.positions.getD i 0 + 1),
                traces := traceSnoc s.traces i
                  (s.streamBuffer.get ⟨s.positions.getD i 0, hlt⟩) }) := by
          rw [next, if_neg hdone, dif_pos hlt]
        rw [hstep]
        exact ⟨rfl, herr, rfl, fun _ hfr => absurd hlt hfr⟩
      · have hstep : next i s = (.thrown e, s) := by
          rw [next, if_neg hdone, dif_neg hlt, getNextStreamElement,
            if_neg hexh2, herr]
        rw [hstep]
        exact ⟨rfl, herr, rfl, fun _ _ => rfl⟩

theorem source_error_capture_replay_witness :
    next 0 (initState ([] : List Nat) (some 7) 1) =
      (.thrown 7, { initState ([] : List Nat) (some 7) 1 with
        streamError := some 7, pulls := 1 }) ∧
    (next 0 { initState ([] : List Nat) (some 7) 1 with
        streamError := some 7, pulls := 1 }).2.pulls = 1 ∧
    (next 0 { initState ([] : List Nat) (some 7) 1 with
        streamError := some 7, pulls := 1 }).1 = .thrown 7 :=
  ⟨source_error_capture_replay.1 _ 7 0 rfl rfl rfl rfl rfl (by decide),
   (source_error_capture_replay.2
     { initState ([] : List Nat) (some 7) 1 with
       streamError := some 7, pulls := 1 } 7 0 rfl rfl).1,
   by
    have h := (source_error_capture_replay.2
      { initState ([] : List Nat) (some 7) 1 with
        streamError := some 7, pulls := 1 } 7 0 rfl rfl).2.2.2
      (by decide) (by decide)
    rw [h]⟩

/-- C4 counterexample: with a source that raises on its first pull, the
single cursor observes the captured error on its first `next()`, is not
marked terminal, and observes the very same error again on its second
`next()` — contradicting "each cursor observes this terminal failure
exactly once" and "the cursor becomes terminal after observing it". -/
theorem source_error_observed_twice_ce :
    (next 0 (initState ([] : List Nat) (some 7) 1)).1 = .thrown 7 ∧
    (next 0 (next 0 (initState ([] : List Nat) (some 7) 1)).2).1 = .thrown 7 ∧
    cursorDone (next 0 (next 0 (initState ([] : List Nat) (some 7) 1)).2).2 0 =
      false := by
  decide

/-- C5 (amended): calling the consumer runner with no descriptors raises a
plain `Error` (not a `TypeError`) synchronously.  A descriptor that is not
an object with a string `kind` and a function `fn` raises a `TypeError`
synchronously, before any element is pulled — the outcome is the same for
every source array.  An unrecognized `kind`, however, passes validation:
over a nonempty source it raises a plain `Error` while processing the
first element, and over an empty source it raises nothing and leaves the
`fill(0)` placeholder `0` in that result slot. -/
theorem teeConsumers_validation_behavior :
    (∀ S : List JSVal,
      teeConsumers S [] = .error (.error "At least one consumer must be provided")) ∧
    (∀ (S S2 : List JSVal) (cs : List ConsumerArg) (e : JSError),
      cs ≠ [] → validateConsumers cs = .error e →
      (∃ m, e = .typeError m) ∧ teeConsumers S cs = .error e ∧
      teeConsumers S cs = teeConsumers S2 cs) ∧
    (∀ (k : String) (f : List JSVal → JSVal) (iv : Option JSVal),
      k ≠ "forEach" → k ≠ "map" → k ≠ "reduce" → k ≠ "filter" →
      (∀ (x : JSVal) (xs : List JSVal),
        teeConsumers (x :: xs) [.obj (some k) (some f) iv] =
          .error (.error ("Unknown consumer kind: " ++ k))) ∧
      teeConsumers [] [.obj (some k) (some f) iv] = .ok [.num 0]) := by
  have herr : ∀ (S : List JSVal) (cs : List ConsumerArg) (e : JSError),
      cs ≠ [] → validateConsumers cs = .error e →
      teeConsumers S cs = .error e := by
    intro S cs e hne hv
    have hne2 : cs.isEmpty = false := by
      cases cs
      · exact absurd rfl hne
      · rfl
    rw [teeConsumers, hne2]
    simp only [Bool.false_eq_true, if_false]
    rw [hv]
    rfl
  refine ⟨fun S => by rw [teeConsumers]; rfl, ?_, ?_⟩
  · intro S S2 cs e hne hv
    exact ⟨validateConsumers_error_shape cs e hv, herr S cs e hne hv,
      by rw [herr S cs e hne hv, herr S2 cs e hne hv]⟩
  · intro k f iv h1 h2 h3 h4
    constructor
    · intro x xs
      have hv : validateConsumers [ConsumerArg.obj (some k) (some f) iv] =
          .ok [⟨k, f, iv⟩] := rfl
      rw [teeConsumers_eq_direct (x :: xs) [.obj (some k) (some f) iv]
        [⟨k, f, iv⟩] (by simp) hv]
      rw [processAllDirect]
      rw [processConsumer_unknown_cons k f iv h1 h2 h3 h4]
      rfl
    · have hv : validateConsumers [ConsumerArg.obj (some k) (some f) iv] =
          .ok [⟨k, f, iv⟩] := rfl
      rw [teeConsumers_eq_direct [] [.obj (some k) (some f) iv]
        [⟨k, f, iv⟩] (by simp) hv]
      rw [processAllDirect]
      rw [processConsumer_unknown_nil k f iv h1 h2 h3 h4]
      rfl

theorem teeConsumers_validation_behavior_witness :
    teeConsumers [.num 1] [.nonObject] =
      .error (.typeError "Each consumer must be an object") ∧
    teeConsumers [.num 1] [.obj (some "foo") (some noopFn) none] =
      .error (.error ("Unknown consumer kind: " ++ "foo")) :=
  ⟨(teeConsumers_validation_behavior.2.1 [.num 1] [] [.nonObject]
      (.typeError "Each consumer must be an object") (by simp) rfl).2.1,
   (teeConsumers_validation_behavior.2.2 "foo" noopFn none
      (by decide) (by decide) (by decide) (by decide)).1 (.num 1) []⟩

/-- C5 counterexample: a descriptor whose `kind` is the unrecognized
string `"foo"` does not make the call raise a type error synchronously:
over the empty array the call raises nothing at all and returns the
placeholder result `[0]`. -/
theorem teeConsumers_unknown_kind_ce :
    teeConsumers ([] : List JSVal) [.obj (some "foo") (some noopFn) none] =
      .ok [.num 0] := rfl

/-- C6: a reduce descriptor with no `initVal` over a nonempty source seeds
the accumulator with the first element and applies `fn` only from index 1
on; with a supplied (defined) initial value the accumulator is seeded with
it and `fn` is applied from index 0; in particular reducing `[2, 3, 4]`
with a multiplying function and no initial value returns `24`. -/
theorem reduce_seed_semantics :
    (∀ (f : List JSVal → JSVal) (a : JSVal) (xs : List JSVal),
      teeConsumers (a :: xs) [.obj (some "reduce") (some f) none] =
        .ok [jsReduceSpec f a 1 xs]) ∧
    (∀ (f : List JSVal → JSVal) (iv : JSVal) (S : List JSVal),
      isUndef iv = false →
      teeConsumers S [.obj (some "reduce") (some f) (some iv)] =
        .ok [jsReduceSpec f iv 0 S]) ∧
    teeConsumers [.num 2, .num 3, .num 4]
      [.obj (some "reduce") (some mulFn) none] = .ok [.num 24] := by
  refine ⟨?_, ?_, rfl⟩
  · intro f a xs
    rw [teeConsumers_eq_direct (a :: xs) [.obj (some "reduce") (some f) none]
      [⟨"reduce", f, none⟩] (by simp) rfl,
      processAllDirect, processConsumer_reduce_seed f none rfl a xs]
    rfl
  · intro f iv S hiv
    rw [teeConsumers_eq_direct S [.obj (some "reduce") (some f) (some iv)]
      [⟨"reduce", f, some iv⟩] (by simp) rfl,
      processAllDirect, processConsumer_reduce_init f iv hiv S]
    rfl

theorem reduce_seed_semantics_witness :
    teeConsumers [.num 1, .num 2] [.obj (some "reduce") (some sumFn) (some (.num 0))] =
      .ok [jsReduceSpec sumFn (.num 0) 0 [.num 1, .num 2]] :=
  reduce_seed_semantics.2.1 sumFn (.num 0) [.num 1, .num 2] rfl

/-- C7: the consumer runner returns one result per descriptor in
descriptor order — it equals direct per-descriptor processing of the
source, the result list has one entry per descriptor, map collects
`fn(element, index)` in order, filter keeps the truthy-tested elements,
forEach produces the no-value marker — and concretely, running
map(x*2), filter(x%2==0), reduce(sum, init 0), forEach(noop) over
`[1,2,3,4]` returns `[[2,4,6,8], [2,4], 10, undefined]`. -/
theorem teeConsumers_results :
    (∀ (S : List JSVal) (cs : List ConsumerArg) (fns : List TeeConsumer),
      cs ≠ [] → validateConsumers cs = .ok fns →
      teeConsumers S cs = processAllDirect S fns ∧
      ∀ rs, teeConsumers S cs = .ok rs → rs.length = cs.length) ∧
    (∀ (f : List JSVal → JSVal) (iv : Option JSVal) (S : List JSVal),
      processConsumer ⟨"map", f, iv⟩ S = .ok (.arr (jsMapSpec f 0 S)) ∧
      processConsumer ⟨"filter", f, iv⟩ S = .ok (.arr (jsFilterSpec f 0 S)) ∧
      processConsumer ⟨"forEach", f, iv⟩ S = .ok .undef) ∧
    teeConsumers [.num 1, .num 2, .num 3, .num 4]
      [.obj (some "map") (some doubleFn) none,
       .obj (some "filter") (some evenFn) none,
       .obj (some "reduce") (some sumFn) (some (.num 0)),
       .obj (some "forEach") (some noopFn) none] =
      .ok [.arr [.num 2, .num 4, .num 6, .num 8], .arr [.num 2, .num 4],
        .num 10, .undef] := by
  refine ⟨?_, ?_, rfl⟩
  · intro S cs fns hne hv
    refine ⟨teeConsumers_eq_direct S cs fns hne hv, fun rs hrs => ?_⟩
    rw [teeConsumers_eq_direct S cs fns hne hv] at hrs
    rw [processAllDirect_length fns S rs hrs,
      validateConsumers_length cs fns hv]
  · intro f iv S
    exact ⟨processConsumer_map f iv S, processConsumer_filter f iv S,
      processConsumer_forEach f iv S⟩

theorem teeConsumers_results_witness :
    teeConsumers [.num 1, .num 2, .num 3, .num 4]
      [.obj (some "map") (some doubleFn) none,
       .obj (some "filter") (some evenFn) none,
       .obj (some "reduce") (some sumFn) (some (.num 0)),
       .obj (some "forEach") (some noopFn) none] =
      processAllDirect [.num 1, .num 2, .num 3, .num 4]
        [⟨"map", doubleFn, none⟩, ⟨"filter", evenFn, none⟩,
         ⟨"reduce", sumFn, some (.num 0)⟩, ⟨"forEach", noopFn, none⟩] :=
  (teeConsumers_results.1 [.num 1, .num 2, .num 3, .num 4]
    [.obj (some "map") (some doubleFn) none,
     .obj (some "filter") (some evenFn) none,
     .obj (some "reduce") (some sumFn) (some (.num 0)),
     .obj (some "forEach") (some noopFn) none]
    [⟨"map", doubleFn, none⟩, ⟨"filter", evenFn, none⟩,
     ⟨"reduce", sumFn, some (.num 0)⟩, ⟨"forEach", noopFn, none⟩]
    (by simp) rfl).1

/-- C8: `return(v)` immediately yields `{ value: v, done: true }` and
marks only its own cursor terminal; `throw(e)` raises `e` and marks only
its own cursor terminal; neither touches the shared buffer, the source
state, the pull count, the read positions, or any other cursor's done
flag; and a terminal cursor's frozen read position still participates in
the eviction minimum, so every buffer element from that position on
survives any other cursor's `next()` — the stopped cursor pins the
buffer. -/
theorem cursor_return_throw_frame {α ε ε2 β : Type} :
    (∀ (s : SplitterState α ε) (i : Nat) (v : β),
      (iterReturn i v s).1 = (v, true) ∧
      (i < s.doneFlags.length → cursorDone (iterReturn i v s).2 i = true) ∧
      (iterReturn i v s).2.streamBuffer = s.streamBuffer ∧
      (iterReturn i v s).2.srcElems = s.srcElems ∧
      (iterReturn i v s).2.srcErr = s.srcErr ∧
      (iterReturn i v s).2.pulls = s.pulls ∧
      (iterReturn i v s).2.streamExhausted = s.streamExhausted ∧
      (iterReturn i v s).2.streamError = s.streamError ∧
      (iterReturn i v s).2.positions = s.positions ∧
      (∀ j, j ≠ i → cursorDone (iterReturn i v s).2 j = cursorDone s j)) ∧
    (∀ (s : SplitterState α ε) (i : Nat) (e : ε2),
      (iterThrow i e s).1 = e ∧
      (i < s.doneFlags.length → cursorDone (iterThrow i e s).2 i = true) ∧
      (iterThrow i e s).2.streamBuffer = s.streamBuffer ∧
      (iterThrow i e s).2.srcElems = s.srcElems ∧
      (iterThrow i e s).2.pulls = s.pulls ∧
      (iterThrow i e s).2.positions = s.positions ∧
      (∀ j, j ≠ i → cursorDone (iterThrow i e s).2 j = cursorDone s j)) ∧
    (∀ (s : SplitterState α ε) (i j : Nat),
      cursorDone s i = true →
      s.positions.getD i 0 ≤ s.streamBuffer.length →
      i < s.positions.length →
      ∃ t, (next j s).2.streamBuffer.drop ((next j s).2.positions.getD i 0) =
        s.streamBuffer.drop (s.positions.getD i 0) ++ t) := by
  refine ⟨?_, ?_, ?_⟩
  · intro s i v
    refine ⟨rfl, fun hi => ?_, rfl, rfl, rfl, rfl, rfl, rfl, rfl, fun j hj => ?_⟩
    · show (s.doneFlags.set i true).getD i false = true
      rw [getD_set_self _ _ _ _ hi]
    · show (s.doneFlags.set i true).getD j false = s.doneFlags.getD j false
      rw [getD_set_ne _ _ _ (fun h => hj h.symm)]
  · intro s i e
    refine ⟨rfl, fun hi => ?_, rfl, rfl, rfl, rfl, fun j hj => ?_⟩
    · show (s.doneFlags.set i true).getD i false = true
      rw [getD_set_self _ _ _ _ hi]
    · show (s.doneFlags.set i true).getD j false = s.doneFlags.getD j false
      rw [getD_set_ne _ _ _ (fun h => hj h.symm)]
  · intro s i j hdone_i hbound hip
    by_cases hdone_j : s.doneFlags.getD j false
    · have hstep : (next j s).2 = s := by rw [next, if_pos hdone_j]
      rw [hstep]
      exact ⟨[], by simp⟩
    · have hij : i ≠ j := by
        intro h
        subst h
        exact hdone_j hdone_i
      by_cases hlt : s.positions.getD j 0 < s.streamBuffer.length
      · have hstep : (next j s).2 =
          cleanupStreamBuffer
            { s with
              positions := s.positions.set j (s.positions.getD j 0 + 1),
              traces := traceSnoc s.traces j
                (s.streamBuffer.get ⟨s.positions.getD j 0, hlt⟩) } := by
          rw [next, if_neg hdone_j, dif_pos hlt]
        rw [hstep]
        refine ⟨[], ?_⟩
        rw [cleanup_drop_pin (by simpa using hip)]
        show s.streamBuffer.drop
          ((s.positions.set j (s.positions.getD j 0 + 1)).getD i 0) = _
        rw [getD_set_ne _ _ _ (fun h => hij h.symm)]
        simp
      · by_cases hexh : s.streamExhausted
        · have hstep : (next j s).2 =
            { s with doneFlags := s.doneFlags.set j true } := by
            rw [next, if_neg hdone_j, dif_neg hlt, getNextStreamElement,
              if_pos hexh]
          rw [hstep]
          exact ⟨[], by simp⟩
        · have hexh2 : ¬ s.streamExhausted = true := hexh
          rcases herr : s.streamError with _ | e
          · rcases hsrcE : s.srcElems with _ | ⟨a, rest⟩
            · rcases hserr : s.srcErr with _ | e
              · have hstep : (next j s).2 =
                  { s with
                    pulls := s.pulls + 1,
                    streamExhausted := true,
                    doneFlags := s.doneFlags.set j true } := by
                  rw [next, if_neg hdone_j, dif_neg hlt, getNextStreamElement,
                    if_neg hexh2, herr, hsrcE, hserr]
                rw [hstep]
                exact ⟨[], by simp⟩
              · have hstep : (next j s).2 =
                  { s with streamError := some e, pulls := s.pulls + 1 } := by
                  rw [next, if_neg hdone_j, dif_neg hlt, getNextStreamElement,
                    if_neg hexh2, herr, hsrcE, hserr]
                rw [hstep]
                exact ⟨[], by simp⟩
            · have hstep : (next j s).2 =
                cleanupStreamBuffer
                  { s with
                    srcElems := rest,
                    pulls := s.pulls + 1,
                    streamBuffer := s.streamBuffer ++ [a],
                    positions := s.positions.set j (s.positions.getD j 0 + 1),
                    traces := traceSnoc s.traces j a } := by
                rw [next, if_neg hdone_j, dif_neg hlt, getNextStreamElement,
                  if_neg hexh2, herr, hsrcE]
              rw [hstep]
              refine ⟨[a], ?_⟩
              rw [cleanup_drop_pin (by simpa using hip)]
              show (s.streamBuffer ++ [a]).drop
                ((s.positions.set j (s.positions.getD j 0 + 1)).getD i 0) = _
              rw [getD_set_ne _ _ _ (fun h => hij h.symm),
                List.drop_append_of_le_length hbound]
          · have hstep : (next j s).2 = s := by
              rw [next, if_neg hdone_j, dif_neg hlt, getNextStreamElement,
                if_neg hexh2, herr]
            rw [hstep]
            exact ⟨[], by simp⟩

theorem cursor_return_throw_frame_witness :
    (iterReturn 0 (42 : Nat) (initState [1, 2] (none : Option Unit) 2)).1 =
      (42, true) ∧
    (∃ t, (next 0 (⟨[1], none, 0, [0], [], false, none, [true], [[]]⟩ :
        SplitterState Nat Unit)).2.streamBuffer.drop
        ((next 0 (⟨[1], none, 0, [0], [], false, none, [true], [[]]⟩ :
          SplitterState Nat Unit)).2.positions.getD 0 0) =
      (⟨[1], none, 0, [0], [], false, none, [true], [[]]⟩ :
        SplitterState Nat Unit).streamBuffer.drop
        ((⟨[1], none, 0, [0], [], false, none, [true], [[]]⟩ :
          SplitterState Nat Unit).positions.getD 0 0) ++ t) :=
  ⟨((@cursor_return_throw_frame Nat Unit Unit Nat).1
      (initState [1, 2] (none : Option Unit) 2) 0 (42 : Nat)).1,
   (@cursor_return_throw_frame Nat Unit Unit Nat).2.2
     (⟨[1], none, 0, [0], [], false, none, [true], [[]]⟩ : SplitterState Nat Unit)
     0 0 rfl (by decide) (by decide)⟩

/-- C9 (amended): `split` raises an invalid-argument `Error` synchronously
— before the source is ever pulled — when the call does not receive
exactly two arguments, when the source lacks the iteration capability, or
when `count` is not a number.  A numeric `count` is floored — truncated
toward negative infinity, not toward zero — and a count that floors to a
negative value makes the `Array(count)` allocation throw a `RangeError`;
otherwise the splitter is created with `floor(count)` cursors and a pull
count of zero. -/
theorem createTeeIterators_validation {α ε : Type} :
    (∀ a : TeeCallArgs α ε, a.argCount ≠ 2 →
      createTeeIterators a =
        .error (.error ("Expected 2 arguments but recieved: " ++
          toString a.argCount))) ∧
    (∀ a : TeeCallArgs α ε, a.argCount = 2 → a.hasIteratorCapability = false →
      createTeeIterators a = .error (.error "Expected Arg 1 to be an iterator.")) ∧
    (∀ a : TeeCallArgs α ε, a.argCount = 2 → a.hasIteratorCapability = true →
      a.count = none →
      createTeeIterators a = .error (.error "Expected Arg 2 to be an integer")) ∧
    (∀ (a : TeeCallArgs α ε) (q : ℚ), a.argCount = 2 →
      a.hasIteratorCapability = true → a.count = some q →
      (q.floor < 0 →
        createTeeIterators a = .error (.rangeError "Invalid array length")) ∧
      (0 ≤ q.floor →
        createTeeIterators a =
          .ok (initState a.srcElems a.srcErr q.floor.toNat, q.floor.toNat) ∧
        (initState a.srcElems a.srcErr q.floor.toNat :
          SplitterState α ε).pulls = 0)) := by
  refine ⟨?_, ?_, ?_, ?_⟩
  · intro a h
    rw [createTeeIterators, if_pos h]
  · intro a h1 h2
    rw [createTeeIterators, if_neg (by simp [h1]), if_pos (by simp [h2])]
  · intro a h1 h2 h3
    rw [createTeeIterators, if_neg (by simp [h1]), if_neg (by simp [h2]), h3]
  · intro a q h1 h2 h3
    constructor
    · intro hq
      rw [createTeeIterators, if_neg (by simp [h1]), if_neg (by simp [h2]), h3]
      simp only [if_pos hq]
    · intro hq
      refine ⟨?_, rfl⟩
      rw [createTeeIterators, if_neg (by simp [h1]), if_neg (by simp [h2]), h3]
      simp only [if_neg (by omega : ¬ q.floor < 0)]

theorem createTeeIterators_validation_witness :
    createTeeIterators (⟨2, true, [1, 2, 3], (none : Option Unit), some 2⟩ :
        TeeCallArgs Nat Unit) =
      .ok (initState [1, 2, 3] none 2, 2) ∧
    createTeeIterators (⟨1, true, [1, 2, 3], (none : Option Unit), some 2⟩ :
        TeeCallArgs Nat Unit) =
      .error (.error ("Expected 2 arguments but recieved: " ++ toString 1)) := by
  constructor
  · have h := ((createTeeIterators_validation.2.2.2
      (⟨2, true, [1, 2, 3], (none : Option Unit), some 2⟩ : TeeCallArgs Nat Unit)
      2 rfl rfl rfl).2 (by decide)).1
    rw [h]
    rfl
  · exact createTeeIterators_validation.1
      (⟨1, true, [1, 2, 3], (none : Option Unit), some 2⟩ : TeeCallArgs Nat Unit)
      (by decide)

/-- C9 counterexample: the fractional count `-1/2` is not truncated toward
zero (which would give 0 cursors and an empty cursor array): the code
floors it to `-1`, and the `Array(-1)` allocation throws a `RangeError`. -/
theorem count_truncation_toward_zero_ce :
    createTeeIterators (⟨2, true, ([] : List Nat), (none : Option Unit),
        some (mkRat (-1) 2)⟩ : TeeCallArgs Nat Unit) =
      .error (.rangeError "Invalid array length") ∧
    (mkRat (-1) 2).floor = -1 := by
  constructor
  · rfl
  · rfl

/-- C10: a reduce descriptor whose `initVal` property is explicitly
present with the value `undefined` behaves exactly as if `initVal` had
been omitted — the implementation distinguishes the two cases only by
comparing the accumulator against `undefined` at index 0 — so the first
element seeds the accumulator and `fn` is not applied at index 0. -/
theorem reduce_explicit_undefined_initVal :
    (∀ (S : List JSVal) (f : List JSVal → JSVal),
      teeConsumers S [.obj (some "reduce") (some f) (some .undef)] =
        teeConsumers S [.obj (some "reduce") (some f) none]) ∧
    (∀ (f : List JSVal → JSVal) (a : JSVal) (xs : List JSVal),
      teeConsumers (a :: xs) [.obj (some "reduce") (some f) (some .undef)] =
        .ok [jsReduceSpec f a 1 xs]) := by
  have hseed : ∀ (f : List JSVal → JSVal) (a : JSVal) (xs : List JSVal),
      teeConsumers (a :: xs) [.obj (some "reduce") (some f) (some .undef)] =
        .ok [jsReduceSpec f a 1 xs] := by
    intro f a xs
    rw [teeConsumers_eq_direct (a :: xs)
      [.obj (some "reduce") (some f) (some .undef)]
      [⟨"reduce", f, some .undef⟩] (by simp) rfl, processAllDirect,
      processConsumer_reduce_seed f (some .undef) rfl a xs]
    rfl
  refine ⟨?_, hseed⟩
  intro S f
  rcases S with _ | ⟨a, xs⟩
  · rfl
  · rw [hseed f a xs,
      teeConsumers_eq_direct (a :: xs) [.obj (some "reduce") (some f) none]
        [⟨"reduce", f, none⟩] (by simp) rfl,
      processAllDirect, processConsumer_reduce_seed f none rfl a xs]
    rfl

end TeeJs
